import Mathlib

/-!
Verification of the daily-plan scoping engine of the personal-dashboard
repository. The definitions below are shallow embeddings of the TypeScript
sources: `src/lib/openai/client.ts` (effort estimation and the workday
scoper), `src/app/api/daily-plan/route.ts` (the planning route: custom hour
overrides, the scoping sort, overflow marking and the final result sort) and
the dashboard page component (category computation, the client-side result
sort, and the plan request assembly). Hours are modelled as rationals: every
hour value the program manipulates is a JS double holding a small dyadic
rational, on which JS arithmetic and comparison agree with exact rational
arithmetic.
-/

/-- Discriminator of a work item's origin, `"pr" | "linear" | "pr_with_linear"`
in the sources. -/
inductive ItemType where
  | pr
  | linear
  | prWithLinear
deriving DecidableEq, Repr

/-- One entry of `reviewCommentsContent` on a task item. -/
structure ReviewComment where
  body : Option String
  user : String
deriving DecidableEq, Repr

/-- The `TaskItem` shape consumed by `estimateEffort` in
`src/lib/openai/client.ts`. Optional fields are `Option`s; fields that only
feed the OpenAI prompt text are carried so that the frame property of
`estimateEffort` is about the full record. -/
structure TaskItem where
  id : String
  type : ItemType
  title : String
  description : Option String
  repo : Option String
  prNumber : Option Nat
  prBody : Option String
  prAdditions : Option Nat
  prDeletions : Option Nat
  prChangedFiles : Option Nat
  prCommits : Option Nat
  prComments : Option Nat
  prReviewComments : Option Nat
  reviewCommentsContent : Option (List ReviewComment)
  linearIdentifier : Option String
  linearPriority : Option String
  linearState : Option String
  linearEstimate : Option Nat
  recentComments : Option String
  reason : Option String
deriving DecidableEq, Repr

/-- `EstimatedItem extends TaskItem` with the resolved hours and reasoning. -/
structure EstimatedItem extends TaskItem where
  hours : ℚ
  reasoning : String
deriving DecidableEq, Repr

/-- Substring test, modelling JS `String.prototype.includes`: a pattern occurs
in `s` iff splitting `s` on it yields more than one piece. -/
def strContains (s pat : String) : Bool :=
  (s.splitOn pat).length != 1

/-- Test whether `item.reason?.includes(pat)` is true. -/
def reasonHas (item : TaskItem) (pat : String) : Bool :=
  match item.reason with
  | some s => strContains s pat
  | none => false

/-- Embedding of `getDefaultEstimate` from `src/lib/openai/client.ts`: the
deterministic heuristic used when the OpenAI oracle is unavailable or fails.
Returns the `(hours, reasoning)` pair. -/
def getDefaultEstimate (item : TaskItem) : ℚ × String :=
  if item.type = ItemType.pr ∨ item.type = ItemType.prWithLinear then
    let totalLines := item.prAdditions.getD 0 + item.prDeletions.getD 0
    let files := item.prChangedFiles.getD 0
    let base : ℚ × String :=
      if 0 < totalLines ∨ 0 < files then
        if totalLines < 100 ∧ files ≤ 3 then
          (1/2, s!"Tiny PR: {totalLines} lines, {files} files")
        else if totalLines < 400 ∧ files ≤ 8 then
          (1/2, s!"Small PR: {totalLines} lines, {files} files")
        else if totalLines < 1000 ∧ files ≤ 15 then
          (1/2, s!"Medium PR: {totalLines} lines, {files} files")
        else if totalLines < 2000 ∧ files ≤ 30 then
          (1, s!"Large PR: {totalLines} lines, {files} files")
        else
          (2, s!"Very large PR: {totalLines} lines, {files} files")
      else
        (1, "Standard PR review")
    if reasonHas item ("Has Review Comments") then
      (1/2, "Addressing review feedback")
    else if reasonHas item ("Changes") ∨ reasonHas item ("Fix") then
      (min (base.1 + 1/2) 4, "Changes requested - " ++ base.2)
    else
      base
  else
    if item.linearPriority = some ("Urgent") then (4, "Urgent priority task")
    else if item.linearPriority = some ("High") then (2, "High priority task")
    else if item.linearPriority = some ("Medium") then (1, "Medium priority task")
    else (1/2, "Low priority quick task")

/-- One `{id, hours, reasoning}` record parsed from the oracle's JSON reply. -/
structure OracleEstimate where
  id : String
  hours : ℚ
  reasoning : String
deriving DecidableEq, Repr

/-- Outcome of the external OpenAI call inside `estimateEffort`. The network
call itself is outside the embedding; each constructor names one control path
of the source: missing `OPENAI_API_KEY`, a non-ok HTTP response, an empty
completion, a thrown error (fetch failure or `JSON.parse` failure caught by
the `try/catch`), or a parsed list of estimates. -/
inductive OracleOutcome where
  | noApiKey
  | httpError
  | emptyContent
  | thrownError
  | ok (estimates : List OracleEstimate)
deriving DecidableEq, Repr

/-- Lookup in `estimateMap = new Map(estimates.map(e => [e.id, ...]))`: for a
duplicated id the later entry wins, hence the reverse search. -/
def lookupEstimate (ests : List OracleEstimate) (id : String) : Option OracleEstimate :=
  ests.reverse.find? (fun e => e.id = id)

/-- Pair a task with heuristic hours and reasoning, as in
`{ ...item, hours: est.hours, reasoning: est.reasoning }` on the fallback
paths of `estimateEffort`. -/
def withDefaultEstimate (item : TaskItem) : EstimatedItem :=
  ⟨item, (getDefaultEstimate item).1, (getDefaultEstimate item).2⟩

/-- Embedding of `estimateEffort` from `src/lib/openai/client.ts`,
parameterized by the oracle outcome. On every failure path the source maps
each item to its heuristic default; on the success path it looks the item's id
up in the estimate map and falls back to the heuristic for ids the oracle did
not answer. -/
def estimateEffort (outcome : OracleOutcome) (items : List TaskItem) : List EstimatedItem :=
  match outcome with
  | OracleOutcome.ok ests =>
      items.map (fun item =>
        match lookupEstimate ests item.id with
        | some e => ⟨item, e.hours, e.reasoning⟩
        | none => withDefaultEstimate item)
  | _ => items.map withDefaultEstimate

/-- Loop of `scopeToWorkday` in `src/lib/openai/client.ts` (the checked-in
two-argument version): an item that fits is taken, an item that does not fit
is taken anyway and the loop stops when nothing has been taken yet
(`totalHours === 0`), and otherwise the item is skipped and the loop
continues with the remaining items. -/
def scopeToWorkdayGo (maxHours : ℚ) : List EstimatedItem → ℚ → List EstimatedItem × ℚ
  | [], totalHours => ([], totalHours)
  | item :: rest, totalHours =>
    if totalHours + item.hours ≤ maxHours then
      let r := scopeToWorkdayGo maxHours rest (totalHours + item.hours)
      (item :: r.1, r.2)
    else if totalHours = 0 then
      ([item], totalHours + item.hours)
    else
      scopeToWorkdayGo maxHours rest totalHours

/-- Embedding of `scopeToWorkday` from `src/lib/openai/client.ts`: returns the
selected items and their total hours. -/
def scopeToWorkday (items : List EstimatedItem) (maxHours : ℚ) : List EstimatedItem × ℚ :=
  scopeToWorkdayGo maxHours items 0

/-- Result record of the overflow-tracking Budget Scoper: selected items,
their total hours, and the index of the overflow item if one was recorded. -/
structure ScopeResult where
  selected : List EstimatedItem
  totalHours : ℚ
  overflowAt : Option Nat
deriving DecidableEq, Repr

/-- Modelled from the spec: the overflow-tracking version of the Budget
Scoper. The daily-plan route calls `scopeToWorkday` with three arguments and
destructures an `overflowAt` field from its result, but the checked-in
`src/lib/openai/client.ts` only holds an older two-argument version returning
`{items, totalHours}`; the implementation the route was written against is
absent from the sources. This loop follows spec section 4.5 step 2 verbatim:
stop before an item when the running total already reached `maxHours`,
otherwise add the item's hours, and record the index as the overflow the
first time the running total strictly exceeds `maxHours`. Returns the index
reached (the cutoff when no overflow was recorded), the running total, and
the recorded overflow index. -/
def scopeSpecGo (maxHours : ℚ) : List EstimatedItem → Nat → ℚ → Option Nat → Nat × ℚ × Option Nat
  | [], i, running, ov => (i, running, ov)
  | item :: rest, i, running, ov =>
    if maxHours ≤ running then
      (i, running, ov)
    else
      let running' := running + item.hours
      let ov' := if ov = none ∧ maxHours < running' then some i else ov
      scopeSpecGo maxHours rest (i + 1) running' ov'

/-- Modelled from the spec: steps 1, 3 and 4 of the Budget Scoper of spec
section 4.5, wrapping `scopeSpecGo`. When an overflow index was recorded the
cutoff is forced to the position right after it and the total is recomputed
as the sum of the selected hours; the third `prioritizedTaskIds` argument the
route passes has no effect described by the spec and is not modelled. -/
def scopeSpec (items : List EstimatedItem) (maxHours : ℚ) : ScopeResult :=
  let r := scopeSpecGo maxHours items 0 0 none
  match r.2.2 with
  | some o =>
      ⟨items.take (o + 1), ((items.take (o + 1)).map (fun it => it.hours)).sum, some o⟩
  | none => ⟨items.take r.1, r.2.1, none⟩

/-- Sum of the hours of the first `n` items of a list; the running total of
the scoper after `n` loop iterations. -/
def hoursUpTo (items : List EstimatedItem) (n : Nat) : ℚ :=
  ((items.take n).map (fun it => it.hours)).sum

theorem hoursUpTo_nil (n : Nat) : hoursUpTo [] n = 0 := by
  simp [hoursUpTo]

theorem hoursUpTo_zero (l : List EstimatedItem) : hoursUpTo l 0 = 0 := by
  simp [hoursUpTo]

theorem hoursUpTo_cons_succ (a : EstimatedItem) (l : List EstimatedItem) (n : Nat) :
    hoursUpTo (a :: l) (n + 1) = a.hours + hoursUpTo l n := by
  simp [hoursUpTo]

theorem scopeSpecGo_some (maxHours : ℚ) :
    ∀ (items : List EstimatedItem) (i : Nat) (r : ℚ) (o : Nat),
      (scopeSpecGo maxHours items i r (some o)).2.2 = some o := by
  intro items
  induction items with
  | nil => intro i r o; rfl
  | cons item rest ih =>
    intro i r o
    simp only [scopeSpecGo]
    split
    · rfl
    · simpa using ih (i + 1) (r + item.hours) o

theorem scopeSpecGo_fst_ge (maxHours : ℚ) :
    ∀ (items : List EstimatedItem) (i : Nat) (r : ℚ) (ov : Option Nat),
      i ≤ (scopeSpecGo maxHours items i r ov).1 := by
  intro items
  induction items with
  | nil => intro i r ov; exact Nat.le_refl i
  | cons item rest ih =>
    intro i r ov
    simp only [scopeSpecGo]
    split
    · exact Nat.le_refl i
    · exact Nat.le_trans (Nat.le_succ i) (ih (i + 1) _ _)

theorem scopeSpecGo_none_some (maxHours : ℚ) :
    ∀ (items : List EstimatedItem) (i0 : Nat) (r0 : ℚ) (o : Nat),
      (scopeSpecGo maxHours items i0 r0 none).2.2 = some o →
      ∃ k, o = i0 + k ∧ k < items.length ∧
        (∀ j ≤ k, r0 + hoursUpTo items j < maxHours) ∧
        maxHours < r0 + hoursUpTo items (k + 1) := by
  intro items
  induction items with
  | nil => intro i0 r0 o h; simp [scopeSpecGo] at h
  | cons item rest ih =>
    intro i0 r0 o h
    simp only [scopeSpecGo] at h
    by_cases hstop : maxHours ≤ r0
    · rw [if_pos hstop] at h
      simp at h
    · rw [if_neg hstop] at h
      by_cases hov : maxHours < r0 + item.hours
      · rw [if_pos ⟨trivial, hov⟩] at h
        rw [scopeSpecGo_some] at h
        obtain rfl : i0 = o := Option.some.inj h
        refine ⟨0, by omega, by simp, ?_, ?_⟩
        · intro j hj
          obtain rfl : j = 0 := Nat.le_zero.mp hj
          simpa [hoursUpTo_zero] using lt_of_not_le hstop
        · simpa [hoursUpTo_cons_succ, hoursUpTo_zero] using hov
      · have hcond : ¬(True ∧ maxHours < r0 + item.hours) := by
          intro hc; exact hov hc.2
        rw [if_neg hcond] at h
        obtain ⟨k, hk, hklen, hfit, hover⟩ := ih (i0 + 1) (r0 + item.hours) o h
        refine ⟨k + 1, by omega, by simpa using Nat.succ_lt_succ hklen, ?_, ?_⟩
        · intro j hj
          match j with
          | 0 =>
            simpa [hoursUpTo_zero] using lt_of_not_le hstop
          | Nat.succ j' =>
            have := hfit j' (Nat.le_of_succ_le_succ hj)
            rw [hoursUpTo_cons_succ]
            linarith
        · have := hover
          rw [hoursUpTo_cons_succ]
          linarith

theorem scopeSpecGo_none_none (maxHours : ℚ) :
    ∀ (items : List EstimatedItem) (i0 : Nat) (r0 : ℚ),
      (scopeSpecGo maxHours items i0 r0 none).2.2 = none →
      ∃ c, (scopeSpecGo maxHours items i0 r0 none).1 = i0 + c ∧ c ≤ items.length ∧
        (∀ j, 1 ≤ j → j ≤ c → r0 + hoursUpTo items j ≤ maxHours) ∧
        (scopeSpecGo maxHours items i0 r0 none).2.1 = r0 + hoursUpTo items c := by
  intro items
  induction items with
  | nil =>
    intro i0 r0 _
    exact ⟨0, by simp [scopeSpecGo], by simp, by omega, by simp [scopeSpecGo, hoursUpTo_zero]⟩
  | cons item rest ih =>
    intro i0 r0 h
    simp only [scopeSpecGo] at h ⊢
    by_cases hstop : maxHours ≤ r0
    · rw [if_pos hstop] at h ⊢
      exact ⟨0, by simp, by simp, by omega, by simp [hoursUpTo_zero]⟩
    · rw [if_neg hstop] at h ⊢
      by_cases hov : maxHours < r0 + item.hours
      · rw [if_pos ⟨trivial, hov⟩] at h
        rw [scopeSpecGo_some] at h
        exact absurd h (by simp)
      · have hcond : ¬(True ∧ maxHours < r0 + item.hours) := by
          intro hc; exact hov hc.2
        rw [if_neg hcond] at h ⊢
        obtain ⟨c, hc1, hclen, hfit, htot⟩ := ih (i0 + 1) (r0 + item.hours) h
        refine ⟨c + 1, by omega, by simpa using Nat.succ_le_succ hclen, ?_, ?_⟩
        · intro j hj1 hjc
          match j with
          | Nat.succ j' =>
            rw [hoursUpTo_cons_succ]
            match j' with
            | 0 =>
              have := le_of_not_lt hov
              simpa [hoursUpTo_zero] using this
            | Nat.succ j'' =>
              have := hfit (j'' + 1) (by omega) (by omega)
              linarith
        · rw [htot, hoursUpTo_cons_succ]
          ring

/-- A task record with only id and type set, all optional fields absent. -/
def mkTask (id : String) (ty : ItemType) : TaskItem :=
  ⟨id, ty, "", none, none, none, none, none, none, none, none, none, none,
   none, none, none, none, none, none, none⟩

/-- Example scenario item A: urgent, 2 estimated hours. -/
def exItemA : EstimatedItem := ⟨mkTask ("A") ItemType.linear, 2, ""⟩

/-- Example scenario item B: a pull request, 1 estimated hour. -/
def exItemB : EstimatedItem := ⟨mkTask ("B") ItemType.pr, 1, ""⟩

/-- Example scenario item C: todo-high, 4 estimated hours. -/
def exItemC : EstimatedItem := ⟨mkTask ("C") ItemType.linear, 4, ""⟩

/-- Example scenario item D: todo-low, 0.5 estimated hours. -/
def exItemD : EstimatedItem := ⟨mkTask ("D") ItemType.linear, 1/2, ""⟩

/-- Example scenario item X: todo-none, 8 estimated hours. -/
def exItemX : EstimatedItem := ⟨mkTask ("X") ItemType.linear, 8, ""⟩

/-- C1: the Budget Scoper is a single greedy forward pass: when an overflow is
recorded at index `o`, the selection is exactly the first `o + 1` items (every
later item is excluded), every selected item before the overflow keeps the
running total within the budget, the overflow item is the first whose
inclusion pushes the running total past `maxHours`, and the reported total is
the running total including the overflow item; when no overflow is recorded
every selected item fits. On items with hours `[2, 1, 4, 0.5]` and
`maxHours = 6` the selection is `[A, B, C]` with total `7` and overflow at
`C`, and `D` is excluded. -/
theorem scopeSpec_single_greedy_pass :
    (∀ (items : List EstimatedItem) (maxHours : ℚ) (o : Nat),
        (scopeSpec items maxHours).overflowAt = some o →
          o < items.length ∧
          (scopeSpec items maxHours).selected = items.take (o + 1) ∧
          (scopeSpec items maxHours).selected.length = o + 1 ∧
          (∀ j < o, hoursUpTo items (j + 1) ≤ maxHours) ∧
          maxHours < hoursUpTo items (o + 1) ∧
          (scopeSpec items maxHours).totalHours = hoursUpTo items (o + 1)) ∧
    (∀ (items : List EstimatedItem) (maxHours : ℚ),
        (scopeSpec items maxHours).overflowAt = none →
          ∀ j < (scopeSpec items maxHours).selected.length,
            hoursUpTo items (j + 1) ≤ maxHours) ∧
    scopeSpec [exItemA, exItemB, exItemC, exItemD] 6 =
      ⟨[exItemA, exItemB, exItemC], 7, some 2⟩ := by
  refine ⟨?_, ?_, by norm_num [scopeSpec, scopeSpecGo, exItemA, exItemB, exItemC, exItemD,
    mkTask]⟩
  · intro items maxHours o h
    cases hg : (scopeSpecGo maxHours items 0 0 none).2.2 with
    | none =>
      exfalso
      have hnone : (scopeSpec items maxHours).overflowAt = none := by
        simp [scopeSpec, hg]
      rw [hnone] at h
      exact Option.noConfusion h
    | some o' =>
      have hspec : scopeSpec items maxHours =
          ⟨items.take (o' + 1), ((items.take (o' + 1)).map (fun it => it.hours)).sum,
            some o'⟩ := by
        simp [scopeSpec, hg]
      have ho : o' = o := by
        rw [hspec] at h
        exact Option.some.inj h
      subst ho
      obtain ⟨k, hk0, hklen, hfit, hover⟩ := scopeSpecGo_none_some maxHours items 0 0 o' hg
      have hko : k = o' := by omega
      subst hko
      rw [hspec]
      refine ⟨hklen, rfl, ?_, ?_, ?_, rfl⟩
      · simp only [List.length_take]
        omega
      · intro j hj
        have := hfit (j + 1) (by omega)
        rw [zero_add] at this
        exact le_of_lt this
      · rw [zero_add] at hover
        exact hover
  · intro items maxHours h j hj
    cases hg : (scopeSpecGo maxHours items 0 0 none).2.2 with
    | some o =>
      exfalso
      have hsome : (scopeSpec items maxHours).overflowAt = some o := by
        simp [scopeSpec, hg]
      rw [hsome] at h
      exact Option.noConfusion h
    | none =>
      obtain ⟨c, hc1, hclen, hfit, _⟩ := scopeSpecGo_none_none maxHours items 0 0 hg
      have hsel : (scopeSpec items maxHours).selected =
          items.take (scopeSpecGo maxHours items 0 0 none).1 := by
        simp [scopeSpec, hg]
      rw [hsel, hc1] at hj
      simp only [List.length_take] at hj
      have hjc : j + 1 ≤ c := by omega
      have := hfit (j + 1) (by omega) hjc
      rw [zero_add] at this
      exact this

/-- Witness for C1 at the example scenario: overflow is recorded at index 2
and the selection is the three-item prefix. -/
theorem scopeSpec_single_greedy_pass_witness :
    2 < ([exItemA, exItemB, exItemC, exItemD] : List EstimatedItem).length ∧
    (scopeSpec [exItemA, exItemB, exItemC, exItemD] 6).selected =
      ([exItemA, exItemB, exItemC, exItemD] : List EstimatedItem).take (2 + 1) :=
  ⟨(scopeSpec_single_greedy_pass.1 [exItemA, exItemB, exItemC, exItemD] 6 2
      (by norm_num [scopeSpec, scopeSpecGo, exItemA, exItemB, exItemC, exItemD, mkTask])).1,
   (scopeSpec_single_greedy_pass.1 [exItemA, exItemB, exItemC, exItemD] 6 2
      (by norm_num [scopeSpec, scopeSpecGo, exItemA, exItemB, exItemC, exItemD, mkTask])).2.1⟩

/-- C4: for every non-empty ordered input and positive budget, both the
checked-in `scopeToWorkday` and the overflow-tracking Budget Scoper return a
non-empty selection; a single 8-hour item against a 4-hour budget is selected
with total 8 (and marked as the overflow by the tracking scoper). -/
theorem scoper_nonempty_selection :
    (∀ (items : List EstimatedItem) (maxHours : ℚ), items ≠ [] → 0 < maxHours →
        (scopeToWorkday items maxHours).1 ≠ [] ∧
        (scopeSpec items maxHours).selected ≠ []) ∧
    scopeToWorkday [exItemX] 4 = ([exItemX], 8) ∧
    scopeSpec [exItemX] 4 = ⟨[exItemX], 8, some 0⟩ := by
  refine ⟨?_, by norm_num [scopeToWorkday, scopeToWorkdayGo, exItemX, mkTask],
    by norm_num [scopeSpec, scopeSpecGo, exItemX, mkTask]⟩
  intro items maxHours hne hpos
  obtain ⟨it, rest, rfl⟩ := List.exists_cons_of_ne_nil hne
  constructor
  · simp only [scopeToWorkday, scopeToWorkdayGo]
    split_ifs <;> simp
  · cases hg : (scopeSpecGo maxHours (it :: rest) 0 0 none).2.2 with
    | some o =>
      simp [scopeSpec, hg]
    | none =>
      have h1 : 1 ≤ (scopeSpecGo maxHours (it :: rest) 0 0 none).1 := by
        simp only [scopeSpecGo]
        rw [if_neg (not_le.mpr hpos)]
        exact scopeSpecGo_fst_ge maxHours rest 1 _ _
      have hsel : (scopeSpec (it :: rest) maxHours).selected =
          (it :: rest).take (scopeSpecGo maxHours (it :: rest) 0 0 none).1 := by
        simp [scopeSpec, hg]
      rw [hsel]
      obtain ⟨n, hn⟩ : ∃ n, (scopeSpecGo maxHours (it :: rest) 0 0 none).1 = n + 1 :=
        ⟨(scopeSpecGo maxHours (it :: rest) 0 0 none).1 - 1, by omega⟩
      rw [hn]
      simp

/-- Witness for C4: the single-item example discharges the non-emptiness
hypotheses. -/
theorem scoper_nonempty_selection_witness :
    ([exItemX] : List EstimatedItem) ≠ [] ∧ (0 : ℚ) < 4 ∧
    (scopeToWorkday [exItemX] 4).1 ≠ [] :=
  ⟨by simp, by norm_num,
   (scoper_nonempty_selection.1 [exItemX] 4 (by simp) (by norm_num)).1⟩

/-- An urgent-priority Linear issue, for the heuristic fallback examples. -/
def urgentTask : TaskItem :=
  { mkTask ("I1") ItemType.linear with linearPriority := some ("Urgent") }

/-- A tiny-diff pull request (10 changed lines in one file), for the heuristic
fallback examples. -/
def tinyPRTask : TaskItem :=
  { mkTask ("P1") ItemType.pr with
      prAdditions := some 8, prDeletions := some 2, prChangedFiles := some 1 }

/-- C9: on every oracle failure path (missing API key, HTTP error, empty
completion, thrown error) `estimateEffort` totally maps each input item to its
deterministic heuristic estimate, so an estimate exists for every item; the
heuristic assigns 4 hours to an urgent-priority Linear issue and 0.5 hours to
a tiny-diff PR. -/
theorem estimateEffort_heuristic_fallback :
    (∀ (outcome : OracleOutcome) (items : List TaskItem),
        (∀ ests, outcome ≠ OracleOutcome.ok ests) →
          estimateEffort outcome items = items.map withDefaultEstimate ∧
          (estimateEffort outcome items).length = items.length) ∧
    getDefaultEstimate urgentTask = (4, "Urgent priority task") ∧
    getDefaultEstimate tinyPRTask = (1/2, "Tiny PR: 10 lines, 1 files") := by
  refine ⟨?_, rfl, rfl⟩
  intro outcome items hne
  cases outcome with
  | ok ests => exact absurd rfl (hne ests)
  | noApiKey => exact ⟨rfl, by simp [estimateEffort]⟩
  | httpError => exact ⟨rfl, by simp [estimateEffort]⟩
  | emptyContent => exact ⟨rfl, by simp [estimateEffort]⟩
  | thrownError => exact ⟨rfl, by simp [estimateEffort]⟩

/-- Witness for C9: the missing-API-key path on a one-item list. -/
theorem estimateEffort_heuristic_fallback_witness :
    estimateEffort OracleOutcome.noApiKey [urgentTask] =
      [urgentTask].map withDefaultEstimate :=
  (estimateEffort_heuristic_fallback.1 OracleOutcome.noApiKey [urgentTask]
    (by intro ests h; cases h)).1

/-- C10: `estimateEffort` returns a list of the same length and order as its
input on every path, and the output at each position extends the input item at
that position unchanged, only adding hours and reasoning. -/
theorem estimateEffort_preserves_items :
    ∀ (outcome : OracleOutcome) (items : List TaskItem),
      (estimateEffort outcome items).length = items.length ∧
      ∀ i : Nat,
        ((estimateEffort outcome items)[i]?).map (fun e => e.toTaskItem) = items[i]? := by
  intro outcome items
  constructor
  · cases outcome <;> simp [estimateEffort]
  · intro i
    cases outcome with
    | ok ests =>
      simp only [estimateEffort, List.getElem?_map]
      cases items[i]? with
      | none => rfl
      | some t =>
        simp only [Option.map_some']
        congr 1
        cases h : lookupEstimate ests t.id <;> simp [h, withDefaultEstimate]
    | noApiKey =>
      simp only [estimateEffort, List.getElem?_map]
      cases items[i]? <;> simp [withDefaultEstimate]
    | httpError =>
      simp only [estimateEffort, List.getElem?_map]
      cases items[i]? <;> simp [withDefaultEstimate]
    | emptyContent =>
      simp only [estimateEffort, List.getElem?_map]
      cases items[i]? <;> simp [withDefaultEstimate]
    | thrownError =>
      simp only [estimateEffort, List.getElem?_map]
      cases items[i]? <;> simp [withDefaultEstimate]

/-- The `pr` sub-record of a route input item; only the `id` field is read by
the route's own logic (lookups and key derivation). -/
structure PRRef where
  id : Nat
deriving DecidableEq, Repr

/-- The `linearIssue` sub-record of a route input item; the route's own logic
reads the Linear `id` and the human identifier. -/
structure LinearRef where
  id : String
  identifier : String
deriving DecidableEq, Repr

/-- An `ActionableItemInput` of `src/app/api/daily-plan/route.ts`, restricted
to the fields the route's sorting, override and overflow logic reads; the
payload fields that are merely copied into the LLM task description are
carried by the `TaskItem` produced from it. -/
structure ActionableItemInput where
  type : ItemType
  sortPriority : Nat
  pr : Option PRRef
  linearIssue : Option LinearRef
deriving DecidableEq, Repr

/-- JS `hasLinear = item.type === "linear" || item.type === "pr_with_linear"`. -/
def hasLinearType (o : ActionableItemInput) : Bool :=
  o.type == ItemType.linear || o.type == ItemType.prWithLinear

/-- JS truthiness of `item.linearIssue?.identifier`: the identifier when it is
present and non-empty. -/
def linearIdentifierOpt (o : ActionableItemInput) : Option String :=
  match o.linearIssue with
  | some l => if l.identifier = "" then none else some l.identifier
  | none => none

/-- JS template `` `pr-${item.pr?.id}` ``, including the `"pr-undefined"` value
produced when the item has no `pr` record. -/
def prTaskId (o : ActionableItemInput) : String :=
  "pr-" ++ (match o.pr with
    | some p => toString p.id
    | none => "undefined")

/-- The task id the route derives for an input item: the Linear identifier for
items with a truthy linked issue identifier, otherwise the `pr-` id. -/
def derivedTaskId (o : ActionableItemInput) : String :=
  if hasLinearType o then (linearIdentifierOpt o).getD (prTaskId o) else prTaskId o

/-- The `items.find(...)` callback the route repeats for original-item lookup:
an original matches a task id when the id the route would derive for it equals
that task id. -/
def matchesTask (o : ActionableItemInput) (id : String) : Bool :=
  derivedTaskId o == id

/-- `items.find(orig => ...)` over the original inputs. -/
def findOriginal (items : List ActionableItemInput) (id : String) :
    Option ActionableItemInput :=
  items.find? (fun o => matchesTask o id)

/-- Lookup in `sortPriorityMap`, the id-to-sortPriority map the route builds
by iterating over the inputs; a later input with the same derived id
overwrites an earlier one, hence the reverse search. -/
def lookupSortPriority (items : List ActionableItemInput) (id : String) : Option Nat :=
  (items.reverse.find? (fun o => matchesTask o id)).map (fun o => o.sortPriority)

/-- The string key the route computes for the `prioritizedSet` test:
`orig?.pr?.id ? String(orig.pr.id) : orig?.linearIssue?.id || ""`, including
the JS falsiness of a zero pr id and of an empty Linear id. -/
def originalKey (o : Option ActionableItemInput) : String :=
  match o with
  | none => ""
  | some orig =>
    match orig.pr with
    | some p =>
      if p.id ≠ 0 then toString p.id
      else (match orig.linearIssue with | some l => l.id | none => "")
    | none => match orig.linearIssue with | some l => l.id | none => ""

/-- JS truthiness filter on an optional number: `0` (and absence) is falsy,
every other number is truthy. -/
def jsTruthyNum : Option ℚ → Option ℚ
  | some q => if q = 0 then none else some q
  | none => none

/-- The `customHourValue` expression of the route:
`(prId && customHours[prId]) || (linearId && customHours[linearId])`, where
`prId` is the pr id rendered as a string when truthy and `linearId` is the
Linear issue id when truthy. A `none` result models a falsy
`customHourValue`. -/
def overrideFor (items : List ActionableItemInput) (customHours : String → Option ℚ)
    (taskId : String) : Option ℚ :=
  let original := findOriginal items taskId
  let prId : Option String :=
    match original with
    | some o => (match o.pr with
        | some p => if p.id ≠ 0 then some (toString p.id) else none
        | none => none)
    | none => none
  let linearId : Option String :=
    match original with
    | some o => (match o.linearIssue with
        | some l => if l.id = "" then none else some l.id
        | none => none)
    | none => none
  match jsTruthyNum (prId.bind customHours) with
  | some v => some v
  | none => jsTruthyNum (linearId.bind customHours)

/-- Rendering of a JS number inside the `Custom estimate: ...h` template:
a non-negative integer or half-integer prints as its decimal form; the values
the dashboard produces are exactly these. -/
def fmtHours (q : ℚ) : String :=
  if q.den = 1 then toString q.num
  else if q.den = 2 then toString (q.num / 2) ++ ".5"
  else toString q

/-- Per-item body of the route's `withCustomHours` map: when the custom hour
chain yields a truthy value the item's hours are replaced by it and the
reasoning becomes the custom-estimate template, otherwise the item passes
through unchanged. -/
def applyCustomHours (items : List ActionableItemInput)
    (customHours : String → Option ℚ) (e : EstimatedItem) : EstimatedItem :=
  match overrideFor items customHours e.id with
  | some v =>
      { e with hours := v, reasoning := "Custom estimate: " ++ fmtHours v ++ "h" }
  | none => e

/-- The route's `withCustomHours = estimated.map(...)`. -/
def withCustomHours (items : List ActionableItemInput)
    (customHours : String → Option ℚ) (estimated : List EstimatedItem) :
    List EstimatedItem :=
  estimated.map (applyCustomHours items customHours)

/-- The dashboard page's `setCustomHours` handler on the custom-hour map: a
`null` (the UI sends `null` for a non-numeric input, since `parseFloat`
returned `NaN`) or non-positive value deletes the item's entry, a positive
value stores it. -/
def setCustomHours (m : String → Option ℚ) (itemId : String) (hours : Option ℚ) :
    String → Option ℚ :=
  fun k =>
    if k = itemId then
      match hours with
      | none => none
      | some h => if h ≤ 0 then none else some h
    else m k

/-- The original input record for example item B: a pull request with id 42. -/
def exInputB : ActionableItemInput := ⟨ItemType.pr, 200, some ⟨42⟩, none⟩

/-- Example override map `{B: 3}`, keyed by B's pr id as the route does. -/
def exCustomHours : String → Option ℚ := fun s => if s = "42" then some 3 else none

/-- Example estimated item B as the oracle returned it: 1 hour. -/
def exEstB : EstimatedItem := ⟨mkTask ("pr-42") ItemType.pr, 1, "oracle says 1h"⟩

/-- C5: whenever the custom-hours chain yields a positive override for an
item, `withCustomHours` sets that item's hours to exactly the override and its
reasoning to the custom-estimate template, regardless of the estimated hours;
the override map `{B: 3}` on item B estimated at 1 hour yields hours 3 and
reasoning `Custom estimate: 3h`. -/
theorem withCustomHours_override_precedence :
    (∀ (items : List ActionableItemInput) (customHours : String → Option ℚ)
        (estimated : List EstimatedItem) (i : Nat) (hi : i < estimated.length) (v : ℚ),
        overrideFor items customHours (estimated.get ⟨i, hi⟩).id = some v → 0 < v →
          ∃ hj : i < (withCustomHours items customHours estimated).length,
            ((withCustomHours items customHours estimated).get ⟨i, hj⟩).hours = v ∧
            ((withCustomHours items customHours estimated).get ⟨i, hj⟩).reasoning =
              "Custom estimate: " ++ fmtHours v ++ "h") ∧
    withCustomHours [exInputB] exCustomHours [exEstB] =
      [⟨mkTask ("pr-42") ItemType.pr, 3, "Custom estimate: 3h"⟩] := by
  constructor
  · intro items customHours estimated i hi v hov _hpos
    have hj : i < (withCustomHours items customHours estimated).length := by
      simpa [withCustomHours] using hi
    refine ⟨hj, ?_⟩
    have hg : (withCustomHours items customHours estimated).get ⟨i, hj⟩ =
        applyCustomHours items customHours (estimated.get ⟨i, hi⟩) := by
      simp [withCustomHours]
    rw [hg]
    simp only [List.get_eq_getElem] at hov
    simp [applyCustomHours, hov]
  · rfl

/-- Witness for C5: the `{B: 3}` example discharges the override hypothesis. -/
theorem withCustomHours_override_precedence_witness :
    0 < (3 : ℚ) ∧
    ∃ hj : 0 < (withCustomHours [exInputB] exCustomHours [exEstB]).length,
      ((withCustomHours [exInputB] exCustomHours [exEstB]).get ⟨0, hj⟩).hours = 3 ∧
      ((withCustomHours [exInputB] exCustomHours [exEstB]).get ⟨0, hj⟩).reasoning =
        "Custom estimate: " ++ fmtHours 3 ++ "h" :=
  ⟨by norm_num,
   withCustomHours_override_precedence.1 [exInputB] exCustomHours [exEstB] 0
     (by simp) 3 rfl (by norm_num)⟩

/-- C6: a malformed manual override is treated as absent. The page handler
`setCustomHours` deletes the item's entry for a `null` (non-numeric input) or
non-positive value, so the map the route receives has no entry for the item;
an item without a truthy override entry passes through `withCustomHours`
unchanged, keeping the oracle/heuristic hours, and a zero value reaching the
route directly is also falsy and ignored. No path raises an error. -/
theorem malformed_override_treated_as_absent :
    (∀ (m : String → Option ℚ) (id : String) (v : ℚ), v ≤ 0 →
        setCustomHours m id (some v) id = none) ∧
    (∀ (m : String → Option ℚ) (id : String), setCustomHours m id none id = none) ∧
    (∀ (items : List ActionableItemInput) (ch : String → Option ℚ) (e : EstimatedItem),
        overrideFor items ch e.id = none → applyCustomHours items ch e = e) ∧
    (∀ (items : List ActionableItemInput) (ch : String → Option ℚ) (e : EstimatedItem),
        (∀ s, ch s = none ∨ ch s = some 0) → applyCustomHours items ch e = e) := by
  refine ⟨?_, ?_, ?_, ?_⟩
  · intro m id v hv
    simp [setCustomHours, hv]
  · intro m id
    simp [setCustomHours]
  · intro items ch e h
    simp [applyCustomHours, h]
  · intro items ch e h
    have hbind : ∀ o : Option String, jsTruthyNum (o.bind ch) = none := by
      intro o
      cases o with
      | none => rfl
      | some s =>
        rcases h s with hs | hs <;> simp [jsTruthyNum, hs]
    have hov : overrideFor items ch e.id = none := by
      simp [overrideFor, hbind]
    simp [applyCustomHours, hov]

/-- Witness for C6: a negative override is deleted by the page handler, and an
item with no override entry keeps its estimated hours. -/
theorem malformed_override_treated_as_absent_witness :
    setCustomHours (fun _ => none) ("42") (some (-2)) ("42") = none ∧
    applyCustomHours [exInputB] (fun _ => none) exEstB = exEstB :=
  ⟨malformed_override_treated_as_absent.1 (fun _ => none) ("42") (-2) (by norm_num),
   (malformed_override_treated_as_absent.2.2.2) [exInputB] (fun _ => none) exEstB
     (fun _ => Or.inl rfl)⟩

/-- Lexicographic comparison of the three-component sort keys used by both
route comparators: section first, then the prioritized bit, then the numeric
sort priority. A JS comparator returning `aSection - bSection`, then `-1/1`
for the prioritized bit, then `aSortPriority - bSortPriority` orders by
exactly this relation. -/
def lexLe3 (a b : Nat × Nat × Nat) : Prop :=
  a.1 < b.1 ∨ (a.1 = b.1 ∧ (a.2.1 < b.2.1 ∨ (a.2.1 = b.2.1 ∧ a.2.2 ≤ b.2.2)))

/-- Sort key the route's `sortedForScoping` comparator computes for an
estimated item: the section `floor(sortPriority / 100)` from the sort
priority map (999 when the id is unknown), the prioritized-set bit from the
original item's key, and the sort priority itself. -/
def scopeSortKey (items : List ActionableItemInput) (pids : List String)
    (e : EstimatedItem) : Nat × Nat × Nat :=
  let sp := (lookupSortPriority items e.id).getD 999
  let pk := originalKey (findOriginal items e.id)
  (sp / 100, if pk ∈ pids then 0 else 1, sp)

/-- The order realized by the route's `sortedForScoping` sort. -/
def scopeLE (items : List ActionableItemInput) (pids : List String)
    (a b : EstimatedItem) : Prop :=
  lexLe3 (scopeSortKey items pids a) (scopeSortKey items pids b)

instance (items : List ActionableItemInput) (pids : List String) :
    DecidableRel (scopeLE items pids) := fun a b => by
  unfold scopeLE lexLe3
  infer_instance

instance (items : List ActionableItemInput) (pids : List String) :
    IsTotal EstimatedItem (scopeLE items pids) :=
  ⟨by intro a b; unfold scopeLE lexLe3; omega⟩

instance (items : List ActionableItemInput) (pids : List String) :
    IsTrans EstimatedItem (scopeLE items pids) :=
  ⟨by intro a b c hab hbc; unfold scopeLE lexLe3 at hab hbc ⊢; omega⟩

/-- One element of the route's response `items`: the spread of the original
input (absent when the id lookup failed), the sort priority re-attached from
the map, the task id, the resolved hours and reasoning, and the overflow
flag. -/
structure PlanItem where
  original : Option ActionableItemInput
  sortPriority : Nat
  taskId : String
  hours : ℚ
  reasoning : String
  isOverflow : Bool
deriving DecidableEq, Repr

/-- The route's `result` map body: assemble a response item from a scoped
estimated item, marking it as overflow when its id is in the overflow id
set. -/
def buildResult (items : List ActionableItemInput) (overflowIds : List String)
    (e : EstimatedItem) : PlanItem :=
  { original := findOriginal items e.id
    sortPriority := (lookupSortPriority items e.id).getD 999
    taskId := e.id
    hours := e.hours
    reasoning := e.reasoning
    isOverflow := decide (e.id ∈ overflowIds) }

/-- Sort key of the route's final `sortedResult` comparator: section and sort
priority from the re-attached `sortPriority`, prioritized bit from the spread
original's key. -/
def resultKey (pids : List String) (p : PlanItem) : Nat × Nat × Nat :=
  (p.sortPriority / 100, if originalKey p.original ∈ pids then 0 else 1, p.sortPriority)

/-- The order realized by the route's final `sortedResult` sort. -/
def resultLE (pids : List String) (a b : PlanItem) : Prop :=
  lexLe3 (resultKey pids a) (resultKey pids b)

instance (pids : List String) : DecidableRel (resultLE pids) := fun a b => by
  unfold resultLE lexLe3
  infer_instance

instance (pids : List String) : IsTotal PlanItem (resultLE pids) :=
  ⟨by intro a b; unfold resultLE lexLe3; omega⟩

instance (pids : List String) : IsTrans PlanItem (resultLE pids) :=
  ⟨by intro a b c hab hbc; unfold resultLE lexLe3 at hab hbc ⊢; omega⟩

/-- The route's `overflowItemIds` set: empty when no overflow was recorded,
otherwise the ids of the scoped items from the overflow index onward. -/
def overflowIdsOf (sres : ScopeResult) : List String :=
  match sres.overflowAt with
  | none => []
  | some o => (sres.selected.drop o).map (fun e => e.id)

/-- The response payload of the daily-plan route. -/
structure DailyPlanResponse where
  items : List PlanItem
  totalHours : ℚ
  maxHours : ℚ
  isOverTime : Bool
deriving DecidableEq, Repr

/-- The daily-plan route pipeline from the estimated items onward (the
`estimated` argument stands for the result of `estimateEffort`, covering
every oracle outcome): apply custom hour overrides, sort for scoping, scope
to the budget with the overflow-tracking scoper, mark overflow items by id,
assemble response items, and sort the result with the final comparator. The
JS `Array.prototype.sort` is modelled by the stable `insertionSort` over the
comparator's order relation. -/
def dailyPlanRoute (items : List ActionableItemInput) (maxHours : ℚ)
    (customHours : String → Option ℚ) (prioritizedIds : List String)
    (estimated : List EstimatedItem) : DailyPlanResponse :=
  let sfs := List.insertionSort (scopeLE items prioritizedIds)
    (withCustomHours items customHours estimated)
  let sres := scopeSpec sfs maxHours
  let result := sres.selected.map (buildResult items (overflowIdsOf sres))
  { items := List.insertionSort (resultLE prioritizedIds) result
    totalHours := sres.totalHours
    maxHours := maxHours
    isOverTime := decide (maxHours < sres.totalHours) }

theorem applyCustomHours_toTaskItem (items : List ActionableItemInput)
    (ch : String → Option ℚ) (e : EstimatedItem) :
    (applyCustomHours items ch e).toTaskItem = e.toTaskItem := by
  unfold applyCustomHours
  cases overrideFor items ch e.id <;> rfl

theorem withCustomHours_ids (items : List ActionableItemInput)
    (ch : String → Option ℚ) (est : List EstimatedItem) :
    (withCustomHours items ch est).map (fun e => e.id) = est.map (fun e => e.id) := by
  unfold withCustomHours
  rw [List.map_map]
  apply List.map_congr_left
  intro a _
  show (applyCustomHours items ch a).toTaskItem.id = a.toTaskItem.id
  rw [applyCustomHours_toTaskItem]

theorem scopeSpec_selected_take (l : List EstimatedItem) (q : ℚ) :
    ∃ n, (scopeSpec l q).selected = l.take n := by
  cases hg : (scopeSpecGo q l 0 0 none).2.2 with
  | none => exact ⟨(scopeSpecGo q l 0 0 none).1, by simp [scopeSpec, hg]⟩
  | some o => exact ⟨o + 1, by simp [scopeSpec, hg]⟩

theorem scopeSpec_overflow_shape (l : List EstimatedItem) (q : ℚ) (o : Nat)
    (h : (scopeSpec l q).overflowAt = some o) :
    o < l.length ∧ (scopeSpec l q).selected = l.take (o + 1) ∧
    (scopeSpec l q).selected.length = o + 1 := by
  cases hg : (scopeSpecGo q l 0 0 none).2.2 with
  | none =>
    have hnone : (scopeSpec l q).overflowAt = none := by simp [scopeSpec, hg]
    rw [hnone] at h
    exact Option.noConfusion h
  | some o' =>
    have hspec : scopeSpec l q =
        ⟨l.take (o' + 1), ((l.take (o' + 1)).map (fun it => it.hours)).sum, some o'⟩ := by
      simp [scopeSpec, hg]
    rw [hspec] at h ⊢
    obtain rfl : o' = o := Option.some.inj h
    obtain ⟨k, hk0, hklen, -, -⟩ := scopeSpecGo_none_some q l 0 0 o' hg
    have : o' < l.length := by omega
    refine ⟨this, rfl, ?_⟩
    simp only [List.length_take]
    omega

theorem resultKey_buildResult (items : List ActionableItemInput) (pids : List String)
    (oids : List String) (e : EstimatedItem) :
    resultKey pids (buildResult items oids e) = scopeSortKey items pids e := rfl

/-- C2: in every planning run of the daily-plan route (any inputs, any
override map, any prioritized ids, any estimated list with distinct task
ids), at most one response item carries `isOverflow = true`, and every item
other than the last of the returned sequence has `isOverflow = false` — so
when an overflow item exists it is the last of the selection. -/
theorem dailyPlan_single_overflow_last :
    ∀ (items : List ActionableItemInput) (maxHours : ℚ)
      (customHours : String → Option ℚ) (prioritizedIds : List String)
      (estimated : List EstimatedItem),
      (estimated.map (fun e => e.id)).Nodup →
      (((dailyPlanRoute items maxHours customHours prioritizedIds estimated).items.filter
          (fun p => p.isOverflow)).length ≤ 1 ∧
        ∀ p ∈ (dailyPlanRoute items maxHours customHours prioritizedIds
            estimated).items.dropLast,
          p.isOverflow = false) := by
  intro items maxHours ch pids est hnd
  set sfs := List.insertionSort (scopeLE items pids) (withCustomHours items ch est)
    with hsfs_def
  have hplan : (dailyPlanRoute items maxHours ch pids est).items =
      List.insertionSort (resultLE pids)
        ((scopeSpec sfs maxHours).selected.map
          (buildResult items (overflowIdsOf (scopeSpec sfs maxHours)))) := rfl
  have hsorted : List.Sorted (scopeLE items pids) sfs := List.sorted_insertionSort _ _
  have hids_perm : List.Perm (sfs.map (fun e => e.id)) (est.map (fun e => e.id)) := by
    have h1 := List.perm_insertionSort (scopeLE items pids) (withCustomHours items ch est)
    exact withCustomHours_ids items ch est ▸ (h1.map (fun e => e.id))
  have hnodup_sfs : (sfs.map (fun e => e.id)).Nodup := hids_perm.nodup_iff.mpr hnd
  obtain ⟨n, hsel⟩ := scopeSpec_selected_take sfs maxHours
  have hsub : (scopeSpec sfs maxHours).selected.Sublist sfs := by
    rw [hsel]
    exact List.take_sublist n sfs
  have hsorted_sel : List.Sorted (scopeLE items pids) (scopeSpec sfs maxHours).selected :=
    List.Pairwise.sublist hsub hsorted
  have hnodup_sel : ((scopeSpec sfs maxHours).selected.map (fun e => e.id)).Nodup :=
    List.Nodup.sublist (hsub.map (fun e => e.id)) hnodup_sfs
  set oids := overflowIdsOf (scopeSpec sfs maxHours) with hoids_def
  have hsorted_res : List.Sorted (resultLE pids)
      ((scopeSpec sfs maxHours).selected.map (buildResult items oids)) := by
    refine List.Pairwise.map _ ?_ hsorted_sel
    intro a b hab
    show resultLE pids (buildResult items oids a) (buildResult items oids b)
    unfold resultLE
    rw [resultKey_buildResult, resultKey_buildResult]
    exact hab
  have hfinal : (dailyPlanRoute items maxHours ch pids est).items =
      (scopeSpec sfs maxHours).selected.map (buildResult items oids) := by
    rw [hplan]
    exact hsorted_res.insertionSort_eq
  rw [hfinal]
  cases hov : (scopeSpec sfs maxHours).overflowAt with
  | none =>
    have hoids : oids = [] := by
      rw [hoids_def]
      unfold overflowIdsOf
      rw [hov]
    have hall : ∀ p ∈ (scopeSpec sfs maxHours).selected.map (buildResult items oids),
        p.isOverflow = false := by
      intro p hp
      obtain ⟨e, _he, rfl⟩ := List.mem_map.mp hp
      show decide (e.id ∈ oids) = false
      rw [hoids]
      simp
    constructor
    · rw [List.filter_eq_nil_iff.mpr (by intro a ha; simp [hall a ha])]
      simp
    · intro p hp
      exact hall p (List.dropLast_subset _ hp)
  | some o =>
    obtain ⟨holen, hsel_eq, hlen⟩ := scopeSpec_overflow_shape sfs maxHours o hov
    have hdlen : ((scopeSpec sfs maxHours).selected.drop o).length = 1 := by
      rw [List.length_drop, hlen]
      omega
    obtain ⟨x, hx⟩ := List.length_eq_one.mp hdlen
    have hoids2 : oids = [x.id] := by
      rw [hoids_def]
      unfold overflowIdsOf
      rw [hov]
      show ((scopeSpec sfs maxHours).selected.drop o).map (fun e => e.id) = [x.id]
      rw [hx]
      rfl
    have hsplit : (scopeSpec sfs maxHours).selected =
        (scopeSpec sfs maxHours).selected.take o ++ [x] := by
      conv_lhs => rw [← List.take_append_drop o (scopeSpec sfs maxHours).selected]
      rw [hx]
    have hfront : ∀ e ∈ (scopeSpec sfs maxHours).selected.take o, e.id ≠ x.id := by
      intro e he heq
      have hn2 := hnodup_sel
      rw [hsplit, List.map_append] at hn2
      rcases List.nodup_append.mp hn2 with ⟨-, -, hdisj⟩
      have hxmem : x.id ∈ ((scopeSpec sfs maxHours).selected.take o).map
          (fun e => e.id) := heq ▸ List.mem_map_of_mem (fun e => e.id) he
      exact hdisj hxmem (by simp)
    rw [hsplit, List.map_append]
    have hffront : (((scopeSpec sfs maxHours).selected.take o).map
        (buildResult items oids)).filter (fun p => p.isOverflow) = [] := by
      apply List.filter_eq_nil_iff.mpr
      intro p hp
      obtain ⟨e, he, rfl⟩ := List.mem_map.mp hp
      have : decide (e.id ∈ oids) = false := by
        rw [hoids2]
        simp [hfront e he]
      simp [buildResult, this]
    constructor
    · rw [List.filter_append, hffront]
      simpa using List.length_filter_le (fun p => p.isOverflow)
        ([x].map (buildResult items oids))
    · rw [List.map_singleton, List.dropLast_concat]
      intro p hp
      obtain ⟨e, he, rfl⟩ := List.mem_map.mp hp
      show decide (e.id ∈ oids) = false
      rw [hoids2]
      simp [hfront e he]

/-- Witness for C2: a concrete two-item run whose second item overflows a
six-hour budget. -/
theorem dailyPlan_single_overflow_last_witness :
    (([⟨mkTask ("a") ItemType.linear, 4, ""⟩,
       ⟨mkTask ("b") ItemType.linear, 4, ""⟩] : List EstimatedItem).map
        (fun e => e.id)).Nodup ∧
    ((dailyPlanRoute [] 6 (fun _ => none) []
        [⟨mkTask ("a") ItemType.linear, 4, ""⟩,
         ⟨mkTask ("b") ItemType.linear, 4, ""⟩]).items.filter
      (fun p => p.isOverflow)).length ≤ 1 :=
  ⟨by simp [mkTask],
   (dailyPlan_single_overflow_last [] 6 (fun _ => none) []
      [⟨mkTask ("a") ItemType.linear, 4, ""⟩, ⟨mkTask ("b") ItemType.linear, 4, ""⟩]
      (by simp [mkTask])).1⟩

/-- The ten fixed planning categories of the dashboard page, in evaluation
order. -/
inductive CategoryKey where
  | urgent
  | pr
  | inprogressHigh
  | inprogressMedium
  | inprogressLow
  | inprogressNone
  | todoHigh
  | todoMedium
  | todoLow
  | todoNone
deriving DecidableEq, Repr

/-- The page's `CATEGORY_ORDER` constant. -/
def CATEGORY_ORDER : List CategoryKey :=
  [CategoryKey.urgent, CategoryKey.pr, CategoryKey.inprogressHigh,
   CategoryKey.inprogressMedium, CategoryKey.inprogressLow, CategoryKey.inprogressNone,
   CategoryKey.todoHigh, CategoryKey.todoMedium, CategoryKey.todoLow,
   CategoryKey.todoNone]

/-- The `linearIssue` sub-record as the page's category and sort logic reads
it: the Linear id and the numeric priority (1 urgent, 2 high, 3 medium,
4 low, 0 or absent none). -/
structure LinearClientRef where
  id : String
  priority : Option Nat
deriving DecidableEq, Repr

/-- A daily-plan item as the page's sorting and categorization reads it. -/
structure DailyPlanItem where
  sortPriority : Option Nat
  pr : Option PRRef
  linearIssue : Option LinearClientRef
deriving DecidableEq, Repr

/-- JS `item.sortPriority || 999`: an absent or zero sort priority falls back
to 999. -/
def clientSortPriority (a : DailyPlanItem) : Nat :=
  match a.sortPriority with
  | some n => if n = 0 then 999 else n
  | none => 999

/-- JS `item.linearIssue?.priority ?? 0`. -/
def priorityOf (a : DailyPlanItem) : Nat :=
  (a.linearIssue.bind (fun l => l.priority)).getD 0

/-- Embedding of the page's `getCategoryKey`: band 1 is urgent, band 2 the PR
section, band 3 maps the numeric priority into the in-progress buckets
(urgent and high collapse into `inprogressHigh`), every other band maps the
priority into the todo buckets. -/
def getCategoryKey (item : DailyPlanItem) : CategoryKey :=
  let sp := clientSortPriority item
  let sec := sp / 100
  let priority := priorityOf item
  if sec = 1 then CategoryKey.urgent
  else if sec = 2 then CategoryKey.pr
  else if sec = 3 then
    if priority = 1 then CategoryKey.inprogressHigh
    else if priority = 2 then CategoryKey.inprogressHigh
    else if priority = 3 then CategoryKey.inprogressMedium
    else if priority = 4 then CategoryKey.inprogressLow
    else CategoryKey.inprogressNone
  else
    if priority = 1 then CategoryKey.todoHigh
    else if priority = 2 then CategoryKey.todoHigh
    else if priority = 3 then CategoryKey.todoMedium
    else if priority = 4 then CategoryKey.todoLow
    else CategoryKey.todoNone

/-- `CATEGORY_ORDER.indexOf(category)`. -/
def categoryIndex (c : CategoryKey) : Nat :=
  CATEGORY_ORDER.indexOf c

/-- JS `String(item.pr?.id || item.linearIssue?.id)`, including the
`"undefined"` rendering when both are absent and the falsiness of a zero pr
id. -/
def clientItemId (a : DailyPlanItem) : String :=
  match a.pr with
  | some p =>
    if p.id ≠ 0 then toString p.id
    else (match a.linearIssue with | some l => l.id | none => "undefined")
  | none => match a.linearIssue with | some l => l.id | none => "undefined"

/-- Sort key of the page's `sortedItems` comparator: the category index
first; within a category, items listed in the category's custom order come
first in list position, the rest follow by effective sort priority. -/
def clientKey (itemOrder : CategoryKey → List String) (a : DailyPlanItem) :
    Nat × Nat × Nat :=
  let cat := getCategoryKey a
  let lst := itemOrder cat
  let aId := clientItemId a
  (categoryIndex cat, if aId ∈ lst then 0 else 1,
   if aId ∈ lst then lst.indexOf aId else clientSortPriority a)

/-- The order realized by the page's `sortedItems` comparator. -/
def clientLE (itemOrder : CategoryKey → List String) (a b : DailyPlanItem) : Prop :=
  lexLe3 (clientKey itemOrder a) (clientKey itemOrder b)

instance (itemOrder : CategoryKey → List String) : DecidableRel (clientLE itemOrder) :=
  fun a b => by
    unfold clientLE lexLe3
    infer_instance

instance (itemOrder : CategoryKey → List String) :
    IsTotal DailyPlanItem (clientLE itemOrder) :=
  ⟨by intro a b; unfold clientLE lexLe3; omega⟩

instance (itemOrder : CategoryKey → List String) :
    IsTrans DailyPlanItem (clientLE itemOrder) :=
  ⟨by intro a b c hab hbc; unfold clientLE lexLe3 at hab hbc ⊢; omega⟩

/-- The page's `sortedItems`: the plan items returned by the route, re-sorted
client-side by category, then custom order, then sort priority. -/
def sortedItems (itemOrder : CategoryKey → List String) (data : List DailyPlanItem) :
    List DailyPlanItem :=
  List.insertionSort (clientLE itemOrder) data

theorem clientKey_fst (itemOrder : CategoryKey → List String) (a : DailyPlanItem) :
    (clientKey itemOrder a).1 = categoryIndex (getCategoryKey a) := rfl

/-- C3: in the page's sorted plan, an item whose category has a strictly
smaller index in the fixed ten-value order appears strictly before any item
of a later category, for every custom per-category order map (and hence
regardless of any prioritized flags applied upstream, since the claim holds
for every input arrangement). -/
theorem category_order_dominates :
    ∀ (itemOrder : CategoryKey → List String) (data : List DailyPlanItem)
      (i j : Nat) (hi : i < (sortedItems itemOrder data).length)
      (hj : j < (sortedItems itemOrder data).length),
      categoryIndex (getCategoryKey ((sortedItems itemOrder data).get ⟨i, hi⟩)) <
        categoryIndex (getCategoryKey ((sortedItems itemOrder data).get ⟨j, hj⟩)) →
      i < j := by
  intro io data i j hi hj hlt
  by_contra hns
  push_neg at hns
  rcases Nat.eq_or_lt_of_le hns with heq | hlt2
  · subst heq
    exact lt_irrefl _ hlt
  · have hs : List.Sorted (clientLE io) (sortedItems io data) :=
      List.sorted_insertionSort _ _
    have hrel := hs.rel_get_of_lt (a := ⟨j, hj⟩) (b := ⟨i, hi⟩) (Fin.mk_lt_mk.mpr hlt2)
    unfold clientLE lexLe3 at hrel
    rw [clientKey_fst, clientKey_fst] at hrel
    omega

/-- An urgent-section item for the category-order witness. -/
def exUrgentPlanItem : DailyPlanItem := ⟨some 100, none, none⟩

/-- A backlog todo item for the category-order witness. -/
def exTodoPlanItem : DailyPlanItem := ⟨some 400, none, none⟩

/-- Witness for C3: in the sorted two-item plan, the urgent item (category
index 0) sits before the todo item (category index 9). -/
theorem category_order_dominates_witness :
    ∃ (hi : 0 < (sortedItems (fun _ => []) [exUrgentPlanItem, exTodoPlanItem]).length)
      (hj : 1 < (sortedItems (fun _ => []) [exUrgentPlanItem, exTodoPlanItem]).length),
      categoryIndex (getCategoryKey
          ((sortedItems (fun _ => []) [exUrgentPlanItem, exTodoPlanItem]).get ⟨0, hi⟩)) <
        categoryIndex (getCategoryKey
          ((sortedItems (fun _ => []) [exUrgentPlanItem, exTodoPlanItem]).get ⟨1, hj⟩)) ∧
      0 < 1 :=
  ⟨by decide, by decide, by decide,
   category_order_dominates (fun _ => []) [exUrgentPlanItem, exTodoPlanItem] 0 1
     (by decide) (by decide) (by decide)⟩

/-- C7: the categorizer maps `band = floor(sortPriority / 100)` as specified:
band 1 to urgent, band 2 to the PR category, band 3 through the priority rank
(urgent and high to `inprogressHigh`, medium, low, otherwise none) into the
in-progress buckets, every other band through the same rank mapping into the
todo buckets; an absent sort priority lands in band 9 (a todo band), and the
result is always one of the ten fixed categories. -/
theorem categorizer_band_mapping :
    ∀ (item : DailyPlanItem),
      (clientSortPriority item / 100 = 1 → getCategoryKey item = CategoryKey.urgent) ∧
      (clientSortPriority item / 100 = 2 → getCategoryKey item = CategoryKey.pr) ∧
      (clientSortPriority item / 100 = 3 →
        ((priorityOf item = 1 ∨ priorityOf item = 2) →
          getCategoryKey item = CategoryKey.inprogressHigh) ∧
        (priorityOf item = 3 → getCategoryKey item = CategoryKey.inprogressMedium) ∧
        (priorityOf item = 4 → getCategoryKey item = CategoryKey.inprogressLow) ∧
        (priorityOf item ≠ 1 → priorityOf item ≠ 2 → priorityOf item ≠ 3 →
          priorityOf item ≠ 4 → getCategoryKey item = CategoryKey.inprogressNone)) ∧
      (clientSortPriority item / 100 ≠ 1 → clientSortPriority item / 100 ≠ 2 →
        clientSortPriority item / 100 ≠ 3 →
        ((priorityOf item = 1 ∨ priorityOf item = 2) →
          getCategoryKey item = CategoryKey.todoHigh) ∧
        (priorityOf item = 3 → getCategoryKey item = CategoryKey.todoMedium) ∧
        (priorityOf item = 4 → getCategoryKey item = CategoryKey.todoLow) ∧
        (priorityOf item ≠ 1 → priorityOf item ≠ 2 → priorityOf item ≠ 3 →
          priorityOf item ≠ 4 → getCategoryKey item = CategoryKey.todoNone)) ∧
      (item.sortPriority = none → clientSortPriority item / 100 = 9) ∧
      getCategoryKey item ∈ CATEGORY_ORDER := by
  intro item
  refine ⟨?_, ?_, ?_, ?_, ?_, ?_⟩
  · intro h
    simp [getCategoryKey, h]
  · intro h
    simp [getCategoryKey, h]
  · intro h
    refine ⟨?_, ?_, ?_, ?_⟩
    · rintro (hp | hp) <;> simp [getCategoryKey, h, hp]
    · intro hp
      simp [getCategoryKey, h, hp]
    · intro hp
      simp [getCategoryKey, h, hp]
    · intro h1 h2 h3 h4
      simp [getCategoryKey, h, h1, h2, h3, h4]
  · intro h1 h2 h3
    refine ⟨?_, ?_, ?_, ?_⟩
    · rintro (hp | hp) <;> simp [getCategoryKey, h1, h2, h3, hp]
    · intro hp
      simp [getCategoryKey, h1, h2, h3, hp]
    · intro hp
      simp [getCategoryKey, h1, h2, h3, hp]
    · intro hp1 hp2 hp3 hp4
      simp [getCategoryKey, h1, h2, h3, hp1, hp2, hp3, hp4]
  · intro h
    simp [clientSortPriority, h]
  · cases h : getCategoryKey item <;> simp [CATEGORY_ORDER]

/-- Witness for C7: a band-1 item is categorized urgent, and a band-3 item of
priority 2 (high) lands in `inprogressHigh`. -/
theorem categorizer_band_mapping_witness :
    (clientSortPriority exUrgentPlanItem / 100 = 1 ∧
      getCategoryKey exUrgentPlanItem = CategoryKey.urgent) ∧
    (clientSortPriority ⟨some 301, none, some ⟨"L1", some 2⟩⟩ / 100 = 3 ∧
      getCategoryKey ⟨some 301, none, some ⟨"L1", some 2⟩⟩ =
        CategoryKey.inprogressHigh) :=
  ⟨⟨by decide, (categorizer_band_mapping exUrgentPlanItem).1 (by decide)⟩,
   ⟨by decide,
    ((categorizer_band_mapping ⟨some 301, none, some ⟨"L1", some 2⟩⟩).2.2.1
        (by decide)).1 (Or.inr (by decide))⟩⟩

/-- A calendar event as the page's meeting-hour computation reads it. -/
structure CalendarEvent where
  id : String
  durationMinutes : ℚ
deriving DecidableEq, Repr

/-- The page's `totalMeetingHours`: the selected events' durations in
minutes, divided by 60 and summed. -/
def totalMeetingHours (events : List CalendarEvent) (selectedEventIds : List String) : ℚ :=
  ((events.filter (fun e => selectedEventIds.contains e.id)).map
    (fun e => e.durationMinutes / 60)).sum

/-- The body the page POSTs to `/api/daily-plan`. -/
structure DailyPlanRequest where
  items : List DailyPlanItem
  maxHours : ℚ
  customHours : String → Option ℚ
  itemOrder : CategoryKey → List String

/-- The page's `generateDailyPlan` up to and including the request it sends:
it bails out without a request when there are no active items, no selected
user, or every item is excluded; otherwise it sends the non-excluded items
with `maxHours` set to `Math.max(0.5, hours - totalMeetingHours)` — the
meeting-adjusted available hours, not the raw requested hours. -/
def generateDailyPlan (activeItems : List DailyPlanItem) (hasUser : Bool)
    (excludedItemIds : List String) (calendarEvents : List CalendarEvent)
    (selectedEventIds : List String) (customHourEstimates : String → Option ℚ)
    (itemOrder : CategoryKey → List String) (hours : ℚ) : Option DailyPlanRequest :=
  if activeItems.isEmpty || !hasUser then none
  else
    let itemsToSend :=
      activeItems.filter (fun i => !excludedItemIds.contains (clientItemId i))
    if itemsToSend.isEmpty then none
    else
      let availableHours :=
        max (1/2) (hours - totalMeetingHours calendarEvents selectedEventIds)
      some ⟨itemsToSend, availableHours, customHourEstimates, itemOrder⟩

/-- C8: whenever the page issues a plan request, the request's `maxHours` is
the meeting-adjusted `max(0.5, requestedHours - totalMeetingHours)` where
`totalMeetingHours` sums the selected events' `durationMinutes / 60` — not
the raw requested hours. -/
theorem plan_request_uses_available_hours :
    ∀ (activeItems : List DailyPlanItem) (hasUser : Bool)
      (excludedItemIds : List String) (calendarEvents : List CalendarEvent)
      (selectedEventIds : List String) (customHourEstimates : String → Option ℚ)
      (itemOrder : CategoryKey → List String) (hours : ℚ) (r : DailyPlanRequest),
      generateDailyPlan activeItems hasUser excludedItemIds calendarEvents
        selectedEventIds customHourEstimates itemOrder hours = some r →
      r.maxHours = max (1/2) (hours -
        ((calendarEvents.filter (fun e => selectedEventIds.contains e.id)).map
          (fun e => e.durationMinutes / 60)).sum) ∧
      totalMeetingHours calendarEvents selectedEventIds =
        ((calendarEvents.filter (fun e => selectedEventIds.contains e.id)).map
          (fun e => e.durationMinutes / 60)).sum := by
  intro activeItems hasUser excludedItemIds calendarEvents selectedEventIds
    customHourEstimates itemOrder hours r h
  refine ⟨?_, rfl⟩
  unfold generateDailyPlan at h
  dsimp only at h
  split_ifs at h with h1 h2
  obtain rfl := Option.some.inj h
  rfl

/-- An example meeting of 90 minutes for the C8 witness. -/
def exMeeting : CalendarEvent := ⟨"e1", 90⟩

/-- Witness for C8: a concrete run with one selected 90-minute meeting and a
request for 8 hours produces a request, and its budget is the adjusted
value. -/
theorem plan_request_uses_available_hours_witness :
    generateDailyPlan [exTodoPlanItem] true [] [exMeeting] ["e1"] (fun _ => none)
        (fun _ => []) 8 =
      some ⟨[exTodoPlanItem], max (1/2) (8 - totalMeetingHours [exMeeting] ["e1"]),
        fun _ => none, fun _ => []⟩ ∧
    (⟨[exTodoPlanItem], max (1/2) (8 - totalMeetingHours [exMeeting] ["e1"]),
        fun _ => none, fun _ => []⟩ : DailyPlanRequest).maxHours =
      max (1/2) (8 -
        (([exMeeting].filter (fun e => (["e1"] : List String).contains e.id)).map
          (fun e => e.durationMinutes / 60)).sum) :=
  ⟨rfl,
   (plan_request_uses_available_hours [exTodoPlanItem] true [] [exMeeting] ["e1"]
      (fun _ => none) (fun _ => []) 8
      ⟨[exTodoPlanItem], max (1/2) (8 - totalMeetingHours [exMeeting] ["e1"]),
        fun _ => none, fun _ => []⟩ rfl).1⟩
